import Mathlib

/-!
Verification development for the Buffon needle Monte Carlo simulation
(src/Buffon_MC.py).  Machine floats are modelled by exact rationals for the
classifier and accumulator, and by real numbers where the source uses
trigonometric functions (the needle sampler).  Python's `int()` cast
truncates toward zero and is modelled by `pyTrunc`.  The `while` loop of
`check_intersections_batch` is modelled by a fuel-indexed recursion `sweep`
whose fuel bound `sweepFuel` dominates the loop's iteration count.
-/

namespace Buffon

/-- A needle, one row of the `positions` array produced by
`generate_needles_batch`: endpoint coordinates `(x1, y1, x2, y2)`. -/
structure Needle (α : Type) where
  x1 : α
  y1 : α
  x2 : α
  y2 : α
deriving DecidableEq, Repr

/-- Python's `int()` cast on a real quantity: truncation toward zero. -/
def pyTrunc (q : ℚ) : ℤ := if 0 ≤ q then ⌊q⌋ else ⌈q⌉

/-- Source line 97: `line_below = int(y_min / spacing) * spacing`. -/
def line_below (y_min spacing : ℚ) : ℚ := (pyTrunc (y_min / spacing) : ℚ) * spacing

/-- Source line 98: `line_above = (int(y_max / spacing) + 1) * spacing`. -/
def line_above (y_max spacing : ℚ) : ℚ := ((pyTrunc (y_max / spacing) + 1 : ℤ) : ℚ) * spacing

/-- The `while` loop of source lines 102-107, with explicit fuel:
starting from `line_y`, repeatedly test `y_min <= line_y <= y_max`,
stepping `line_y` by `spacing` while `line_y <= line_above`.  Returns
`some true` on the `break` (intersection found), `some false` when the
loop condition fails, and `none` if the fuel is exhausted first. -/
def sweep (y_lo y_hi spacing line_ab : ℚ) : ℚ → ℕ → Option Bool
  | _, 0 => none
  | line_y, fuel + 1 =>
    if line_y ≤ line_ab then
      if y_lo ≤ line_y ∧ line_y ≤ y_hi then some true
      else sweep y_lo y_hi spacing line_ab (line_y + spacing) fuel
    else some false

/-- Number of loop-condition evaluations performed by `sweep` (each
unfolding of the `while` counts once, including the final failing test). -/
def sweepSteps (y_lo y_hi spacing line_ab : ℚ) : ℚ → ℕ → ℕ
  | _, 0 => 0
  | line_y, fuel + 1 =>
    if line_y ≤ line_ab then
      if y_lo ≤ line_y ∧ line_y ≤ y_hi then 1
      else 1 + sweepSteps y_lo y_hi spacing line_ab (line_y + spacing) fuel
    else 1

/-- Fuel sufficient for the sweep loop: one more than the number of
spacing-steps from `line_below` to `line_above`. -/
def sweepFuel (y_lo y_hi spacing : ℚ) : ℕ :=
  ((pyTrunc (y_hi / spacing) + 1) + 1 - pyTrunc (y_lo / spacing)).toNat + 1

/-- The per-needle body of `check_intersections_batch` (source lines 89-107):
reads only the endpoint y-coordinates, brackets the candidate lines with
`line_below` and `line_above`, and sweeps candidate line positions. -/
def check_one (p : Needle ℚ) (spacing : ℚ) : Bool :=
  let y_min := min p.y1 p.y2
  let y_max := max p.y1 p.y2
  (sweep y_min y_max spacing (line_above y_max spacing) (line_below y_min spacing)
    (sweepFuel y_min y_max spacing)).getD false

/-- Loop-condition evaluation count of `check_one` at a given needle. -/
def check_one_steps (p : Needle ℚ) (spacing : ℚ) : ℕ :=
  let y_min := min p.y1 p.y2
  let y_max := max p.y1 p.y2
  sweepSteps y_min y_max spacing (line_above y_max spacing) (line_below y_min spacing)
    (sweepFuel y_min y_max spacing)

/-- Source lines 83-109, `check_intersections_batch`: classify every needle
of the batch independently. -/
def check_intersections_batch (positions : List (Needle ℚ)) (spacing : ℚ) : List Bool :=
  positions.map (fun p => check_one p spacing)

/-- Modelled from the spec: the closed-form floor-based test of section 4.2,
item 3 — intersects iff `floor(y_hi/spacing) > floor(y_lo/spacing)`, or
`y_lo/spacing` is itself an integer.  This definition follows the spec's
words; it is the refinement target compared against `check_one`. -/
def closed_form_test (p : Needle ℚ) (spacing : ℚ) : Bool :=
  let y_lo := min p.y1 p.y2
  let y_hi := max p.y1 p.y2
  decide (⌊y_lo / spacing⌋ < ⌊y_hi / spacing⌋) || decide ((⌊y_lo / spacing⌋ : ℚ) = y_lo / spacing)

/-- Source line 8: `NEEDLE_LENGTH = 1.0`. -/
def NEEDLE_LENGTH : ℚ := 1

/-- Source line 9: `LINE_SPACING = 1.0`. -/
def LINE_SPACING : ℚ := 1

/-- Source line 10: `N_NEEDLES_PER_FRAME = 10`. -/
def N_NEEDLES_PER_FRAME : ℤ := 10

/-- Source line 11: `MAX_NEEDLES = 2000`. -/
def MAX_NEEDLES : ℤ := 2000

/-- The mutable globals of source lines 44-51 that `update` reads and
writes: running totals, the convergence history, and the collected needle
segments split by classification. -/
structure SimState where
  n_intersections : ℤ
  n_total : ℤ
  history_n : List ℤ
  history_ratio : List ℚ
  green_needles : List (Needle ℚ)
  red_needles : List (Needle ℚ)
deriving DecidableEq, Repr

/-- The accumulator loop of source lines 128-138: for each needle of the
batch, append its segment to the green or red collection and bump the
totals. -/
def sort_needles : SimState → List (Needle ℚ × Bool) → SimState
  | s, [] => s
  | s, (p, b) :: rest =>
    sort_needles
      (if b then
        { s with green_needles := s.green_needles ++ [p],
                 n_intersections := s.n_intersections + 1,
                 n_total := s.n_total + 1 }
      else
        { s with red_needles := s.red_needles ++ [p],
                 n_total := s.n_total + 1 }) rest

/-- Source lines 150-166 of `update`: the guarded π estimate.  Entering the
history block at all needs `n_total > 0`; within it, the estimate
`2 * NEEDLE_LENGTH / (ratio * LINE_SPACING)` is produced only when
`ratio > 0.01`, otherwise the undefined marker (the text `N/A`) is shown,
modelled by `none`. -/
def pi_estimate (n_inter n_tot : ℤ) : Option ℚ :=
  if 0 < n_tot then
    if 1 / 100 < (n_inter : ℚ) / (n_tot : ℚ) then
      some (2 * NEEDLE_LENGTH / (((n_inter : ℚ) / (n_tot : ℚ)) * LINE_SPACING))
    else none
  else none

/-- Source lines 115-159, the per-frame `update`, on its state-mutating
effects (rendering calls excluded).  The random batch is abstracted by
`oracle`, standing for `generate_needles_batch`: position `i` of the frame's
batch is `oracle i`.  Early return once `n_total >= MAX_NEEDLES`; otherwise
the batch is truncated to `min(N_NEEDLES_PER_FRAME, MAX_NEEDLES - n_total)`,
classified, folded by `sort_needles`, and the history is extended. -/
def update (oracle : ℕ → Needle ℚ) (_frame : ℤ) (s : SimState) : SimState :=
  if MAX_NEEDLES ≤ s.n_total then s
  else
    let n_to_add : ℤ := min N_NEEDLES_PER_FRAME (MAX_NEEDLES - s.n_total)
    let positions := (List.range n_to_add.toNat).map oracle
    let intersects := check_intersections_batch positions LINE_SPACING
    let s1 := sort_needles s (positions.zip intersects)
    if 0 < s1.n_total then
      { s1 with
          history_n := s1.history_n ++ [s1.n_total],
          history_ratio :=
            s1.history_ratio ++ [(s1.n_intersections : ℚ) / (s1.n_total : ℚ)] }
    else s1

/-- Source lines 61-81, `generate_needles_batch`, per-needle body: from the
uniform draws `(x, y, angle)` build the endpoint row
`(x, y, x + length * cos angle, y + length * sin angle)`. -/
noncomputable def generate_one (len x y angle : ℝ) : Needle ℝ :=
  ⟨x, y, x + len * Real.cos angle, y + len * Real.sin angle⟩

/-- Source lines 61-81: the batch sampler, with the random draws supplied
explicitly, one `(x, y, angle)` triple per needle of the batch. -/
noncomputable def generate_needles_batch (len : ℝ) (draws : List (ℝ × ℝ × ℝ)) :
    List (Needle ℝ) :=
  draws.map (fun d => generate_one len d.1 d.2.1 d.2.2)

/-- Euclidean length of a needle. -/
noncomputable def needleLength (p : Needle ℝ) : ℝ :=
  Real.sqrt ((p.x2 - p.x1) ^ 2 + (p.y2 - p.y1) ^ 2)

lemma pyTrunc_le_ceil (q : ℚ) : pyTrunc q ≤ ⌈q⌉ := by
  unfold pyTrunc; split
  · exact Int.floor_le_ceil q
  · exact le_refl _

lemma floor_le_pyTrunc (q : ℚ) : ⌊q⌋ ≤ pyTrunc q := by
  unfold pyTrunc; split
  · exact le_refl _
  · exact Int.floor_le_ceil q

/-- Running the sweep loop from the candidate position `k * s` with enough
fuel: the loop exits, and it reports an intersection exactly when some
candidate `j * s` with `k ≤ j ≤ b` lands in the closed needle interval. -/
lemma sweep_run (y_lo y_hi s : ℚ) (hs : 0 < s) (b : ℤ) :
    ∀ (fuel : ℕ) (k : ℤ), (b + 1 - k).toNat < fuel →
      ∃ r : Bool, sweep y_lo y_hi s ((b : ℚ) * s) ((k : ℚ) * s) fuel = some r ∧
        (r = true ↔ ∃ j : ℤ, k ≤ j ∧ j ≤ b ∧ y_lo ≤ (j : ℚ) * s ∧ (j : ℚ) * s ≤ y_hi) := by
  intro fuel
  induction fuel with
  | zero => intro k hk; exact absurd hk (Nat.not_lt_zero _)
  | succ n ih =>
    intro k hk
    by_cases h1 : (k : ℚ) * s ≤ (b : ℚ) * s
    · have hkb : k ≤ b := by
        have h := (mul_le_mul_right hs).mp h1
        exact_mod_cast h
      by_cases h2 : y_lo ≤ (k : ℚ) * s ∧ (k : ℚ) * s ≤ y_hi
      · refine ⟨true, by simp [sweep, h1, h2], ?_⟩
        constructor
        · intro _; exact ⟨k, le_refl k, hkb, h2.1, h2.2⟩
        · intro _; rfl
      · have hcast : (k : ℚ) * s + s = ((k + 1 : ℤ) : ℚ) * s := by push_cast; ring
        obtain ⟨r, hr, hiff⟩ := ih (k + 1) (by omega)
        refine ⟨r, ?_, ?_⟩
        · have hstep : sweep y_lo y_hi s ((b : ℚ) * s) ((k : ℚ) * s) (n + 1) =
              sweep y_lo y_hi s ((b : ℚ) * s) ((k : ℚ) * s + s) n := by
            simp [sweep, h1, h2]
          rw [hstep, hcast]; exact hr
        · rw [hiff]
          constructor
          · rintro ⟨j, hj1, hj2, hj3, hj4⟩; exact ⟨j, by omega, hj2, hj3, hj4⟩
          · rintro ⟨j, hj1, hj2, hj3, hj4⟩
            rcases lt_or_eq_of_le hj1 with h | h
            · exact ⟨j, by omega, hj2, hj3, hj4⟩
            · cases h; exact absurd ⟨hj3, hj4⟩ h2
    · refine ⟨false, by simp [sweep, h1], ?_⟩
      constructor
      · intro h; exact absurd h (by simp)
      · rintro ⟨j, hj1, hj2, _, _⟩
        have hbk : b < k := by
          have h := (mul_lt_mul_right hs).mp (lt_of_not_le h1)
          exact_mod_cast h
        exact absurd hj2 (not_le.mpr (lt_of_lt_of_le hbk (by exact_mod_cast hj1)))

/-- The classifier decides existence of a line `k * spacing` in the closed
interval of the needle's endpoint y-coordinates. -/
lemma check_one_true_iff (p : Needle ℚ) (s : ℚ) (hs : 0 < s) :
    check_one p s = true ↔
      ∃ k : ℤ, min p.y1 p.y2 ≤ (k : ℚ) * s ∧ (k : ℚ) * s ≤ max p.y1 p.y2 := by
  obtain ⟨r, hr, hiff⟩ := sweep_run (min p.y1 p.y2) (max p.y1 p.y2) s hs
      (pyTrunc (max p.y1 p.y2 / s) + 1)
      (sweepFuel (min p.y1 p.y2) (max p.y1 p.y2) s)
      (pyTrunc (min p.y1 p.y2 / s)) (by unfold sweepFuel; omega)
  have hco : check_one p s = r := by
    simp only [check_one, line_below, line_above]
    rw [hr]; rfl
  rw [hco, hiff]
  constructor
  · rintro ⟨j, _, _, hj3, hj4⟩; exact ⟨j, hj3, hj4⟩
  · rintro ⟨k, hk1, hk2⟩
    refine ⟨k, ?_, ?_, hk1, hk2⟩
    · have h1 : min p.y1 p.y2 / s ≤ (k : ℚ) := (div_le_iff₀ hs).mpr hk1
      exact le_trans (pyTrunc_le_ceil _) (Int.ceil_le.mpr h1)
    · have h1 : (k : ℚ) ≤ max p.y1 p.y2 / s := (le_div_iff₀ hs).mpr hk2
      have h2 : k ≤ ⌊max p.y1 p.y2 / s⌋ := Int.le_floor.mpr h1
      have h3 := floor_le_pyTrunc (max p.y1 p.y2 / s)
      omega

/-- A line `k * s` lies in `[y_lo, y_hi]` exactly when the spec's floor-based
closed-form condition holds. -/
lemma exists_mult_iff_floor (y_lo y_hi s : ℚ) (hs : 0 < s) (hle : y_lo ≤ y_hi) :
    (∃ k : ℤ, y_lo ≤ (k : ℚ) * s ∧ (k : ℚ) * s ≤ y_hi) ↔
      (⌊y_lo / s⌋ < ⌊y_hi / s⌋ ∨ ((⌊y_lo / s⌋ : ℚ) = y_lo / s)) := by
  have hdiv : y_lo / s ≤ y_hi / s := by gcongr
  have key : (∃ k : ℤ, y_lo ≤ (k : ℚ) * s ∧ (k : ℚ) * s ≤ y_hi) ↔
      ⌈y_lo / s⌉ ≤ ⌊y_hi / s⌋ := by
    constructor
    · rintro ⟨k, h1, h2⟩
      have hc := Int.ceil_le.mpr ((div_le_iff₀ hs).mpr h1)
      have hf := Int.le_floor.mpr ((le_div_iff₀ hs).mpr h2)
      omega
    · intro h
      refine ⟨⌈y_lo / s⌉, ?_, ?_⟩
      · exact (div_le_iff₀ hs).mp (Int.le_ceil _)
      · have h2 : (⌈y_lo / s⌉ : ℚ) ≤ (⌊y_hi / s⌋ : ℚ) := by exact_mod_cast h
        exact (le_div_iff₀ hs).mp (le_trans h2 (Int.floor_le _))
  rw [key]
  by_cases hint : ((⌊y_lo / s⌋ : ℚ) = y_lo / s)
  · have hceil : ⌈y_lo / s⌉ = ⌊y_lo / s⌋ := by rw [← hint]; exact Int.ceil_intCast _
    have hmono : ⌊y_lo / s⌋ ≤ ⌊y_hi / s⌋ := Int.floor_le_floor hdiv
    constructor
    · intro _; right; exact hint
    · intro _; omega
  · have hlt : (⌊y_lo / s⌋ : ℚ) < y_lo / s := lt_of_le_of_ne (Int.floor_le _) hint
    have hceil : ⌈y_lo / s⌉ = ⌊y_lo / s⌋ + 1 := by
      have h1 : ⌈y_lo / s⌉ ≤ ⌊y_lo / s⌋ + 1 := Int.ceil_le_floor_add_one _
      have h2 : ⌊y_lo / s⌋ < ⌈y_lo / s⌉ := by
        have h3 : (⌊y_lo / s⌋ : ℚ) < (⌈y_lo / s⌉ : ℚ) := lt_of_lt_of_le hlt (Int.le_ceil _)
        exact_mod_cast h3
      omega
    rw [hceil]
    constructor
    · intro h; left; omega
    · rintro (h | h)
      · omega
      · exact absurd h hint

/-- The sweep and the spec's closed-form test agree on every needle when the
spacing is positive. -/
lemma check_one_eq_closed_form (p : Needle ℚ) (s : ℚ) (hs : 0 < s) :
    check_one p s = closed_form_test p s := by
  have h1 := check_one_true_iff p s hs
  have h2 : closed_form_test p s = true ↔
      (⌊min p.y1 p.y2 / s⌋ < ⌊max p.y1 p.y2 / s⌋ ∨
        ((⌊min p.y1 p.y2 / s⌋ : ℚ) = min p.y1 p.y2 / s)) := by
    simp [closed_form_test]
  have h3 := exists_mult_iff_floor (min p.y1 p.y2) (max p.y1 p.y2) s hs min_le_max
  cases hc : check_one p s with
  | true =>
    have := h3.mp (h1.mp hc)
    exact (h2.mpr this).symm
  | false =>
    cases hf : closed_form_test p s with
    | true =>
      have := h1.mpr (h3.mpr (h2.mp hf))
      rw [hc] at this; exact this
    | false => rfl

/-- When `line_y` has already passed `line_above` the loop body is never
entered: at most the one failing condition check happens. -/
lemma sweepSteps_exit (y_lo y_hi s : ℚ) (hs : 0 < s) (b k : ℤ) (hbk : b < k) :
    ∀ fuel, sweepSteps y_lo y_hi s ((b : ℚ) * s) ((k : ℚ) * s) fuel ≤ 1 := by
  intro fuel
  cases fuel with
  | zero => simp [sweepSteps]
  | succ n =>
    have h1 : ¬ ((k : ℚ) * s ≤ (b : ℚ) * s) := by
      rw [not_le]
      exact (mul_lt_mul_right hs).mpr (by exact_mod_cast hbk)
    simp [sweepSteps, h1]

/-- If the loop misses both at the start position `a * s` and at the next
position `(a + 1) * s`, then the loop window is already exhausted:
`line_above` corresponds to an index below `a + 2`. -/
lemma pyTrunc_miss_twice (y_lo y_hi s : ℚ) (hs : 0 < s) (hle : y_lo ≤ y_hi)
    (h1 : ¬ (y_lo ≤ (pyTrunc (y_lo / s) : ℚ) * s ∧ (pyTrunc (y_lo / s) : ℚ) * s ≤ y_hi))
    (h2 : ¬ (y_lo ≤ ((pyTrunc (y_lo / s) + 1 : ℤ) : ℚ) * s ∧
      ((pyTrunc (y_lo / s) + 1 : ℤ) : ℚ) * s ≤ y_hi)) :
    pyTrunc (y_hi / s) + 1 < pyTrunc (y_lo / s) + 2 := by
  have hq12 : y_lo / s ≤ y_hi / s := by gcongr
  set a := pyTrunc (y_lo / s) with ha
  suffices h : pyTrunc (y_hi / s) ≤ a by omega
  by_cases hsign : 0 ≤ y_lo / s
  · have haf : a = ⌊y_lo / s⌋ := by rw [ha]; unfold pyTrunc; simp [hsign]
    have hA1 : (a : ℚ) ≤ y_lo / s := by rw [haf]; exact Int.floor_le _
    have hA2 : (a : ℚ) ≤ y_hi / s := le_trans hA1 hq12
    have hup : y_lo / s ≤ (a : ℚ) + 1 := by
      rw [haf]; exact le_of_lt (Int.lt_floor_add_one _)
    have hm2 : ¬ (((a + 1 : ℤ) : ℚ) ≤ y_hi / s) := by
      intro hcontra
      apply h2
      constructor
      · apply (div_le_iff₀ hs).mp; push_cast; exact hup
      · exact (le_div_iff₀ hs).mp hcontra
    have hq2lt : y_hi / s < (a : ℚ) + 1 := by
      push_cast at hm2; exact lt_of_not_le hm2
    have hq2sign : 0 ≤ y_hi / s := le_trans hsign hq12
    have hbf : pyTrunc (y_hi / s) = ⌊y_hi / s⌋ := by unfold pyTrunc; simp [hq2sign]
    rw [hbf]
    have hfl : ⌊y_hi / s⌋ < a + 1 := by
      rw [Int.floor_lt]; push_cast; exact hq2lt
    omega
  · have haf : a = ⌈y_lo / s⌉ := by rw [ha]; unfold pyTrunc; simp [hsign]
    have hA1 : y_lo / s ≤ (a : ℚ) := by rw [haf]; exact Int.le_ceil _
    have hm1 : ¬ ((a : ℚ) ≤ y_hi / s) := by
      intro hcontra
      exact h1 ⟨(div_le_iff₀ hs).mp hA1, (le_div_iff₀ hs).mp hcontra⟩
    have hle2 : ⌈y_hi / s⌉ ≤ a := Int.ceil_le.mpr (le_of_lt (lt_of_not_le hm1))
    exact le_trans (pyTrunc_le_ceil _) hle2

/-- Although the sweep iterates candidate line positions, its bracketing by
`line_below` and `line_above` makes the per-needle cost constant: at most
three loop-condition evaluations for any needle and any positive spacing. -/
lemma check_one_steps_le_three (p : Needle ℚ) (s : ℚ) (hs : 0 < s) :
    check_one_steps p s ≤ 3 := by
  have hle : min p.y1 p.y2 ≤ max p.y1 p.y2 := min_le_max
  set y_lo := min p.y1 p.y2 with hylo
  set y_hi := max p.y1 p.y2 with hyhi
  show sweepSteps y_lo y_hi s (line_above y_hi s) (line_below y_lo s)
      (sweepFuel y_lo y_hi s) ≤ 3
  rw [show line_above y_hi s = ((pyTrunc (y_hi / s) + 1 : ℤ) : ℚ) * s from rfl,
    show line_below y_lo s = ((pyTrunc (y_lo / s) : ℤ) : ℚ) * s from rfl,
    show sweepFuel y_lo y_hi s =
      ((pyTrunc (y_hi / s) + 1) + 1 - pyTrunc (y_lo / s)).toNat + 1 from rfl]
  simp only [sweepSteps]
  by_cases hc1 : ((pyTrunc (y_lo / s) : ℤ) : ℚ) * s ≤ ((pyTrunc (y_hi / s) + 1 : ℤ) : ℚ) * s
  · rw [if_pos hc1]
    by_cases hhit1 : y_lo ≤ ((pyTrunc (y_lo / s) : ℤ) : ℚ) * s ∧
        ((pyTrunc (y_lo / s) : ℤ) : ℚ) * s ≤ y_hi
    · rw [if_pos hhit1]; omega
    · rw [if_neg hhit1]
      rw [show ((pyTrunc (y_lo / s) : ℤ) : ℚ) * s + s =
        ((pyTrunc (y_lo / s) + 1 : ℤ) : ℚ) * s by push_cast; ring]
      have hinner : ∀ n : ℕ, sweepSteps y_lo y_hi s (((pyTrunc (y_hi / s) + 1 : ℤ) : ℚ) * s)
          (((pyTrunc (y_lo / s) + 1 : ℤ) : ℚ) * s) n ≤ 2 := by
        intro n
        cases n with
        | zero => simp [sweepSteps]
        | succ m =>
          simp only [sweepSteps]
          by_cases hc2 : ((pyTrunc (y_lo / s) + 1 : ℤ) : ℚ) * s ≤
              ((pyTrunc (y_hi / s) + 1 : ℤ) : ℚ) * s
          · rw [if_pos hc2]
            by_cases hhit2 : y_lo ≤ ((pyTrunc (y_lo / s) + 1 : ℤ) : ℚ) * s ∧
                ((pyTrunc (y_lo / s) + 1 : ℤ) : ℚ) * s ≤ y_hi
            · rw [if_pos hhit2]; omega
            · rw [if_neg hhit2]
              have hb := pyTrunc_miss_twice y_lo y_hi s hs hle hhit1 hhit2
              rw [show ((pyTrunc (y_lo / s) + 1 : ℤ) : ℚ) * s + s =
                ((pyTrunc (y_lo / s) + 2 : ℤ) : ℚ) * s by push_cast; ring]
              have hex := sweepSteps_exit y_lo y_hi s hs (pyTrunc (y_hi / s) + 1)
                (pyTrunc (y_lo / s) + 2) hb m
              omega
          · rw [if_neg hc2]; omega
      have := hinner ((pyTrunc (y_hi / s) + 1) + 1 - pyTrunc (y_lo / s)).toNat
      omega
  · rw [if_neg hc1]; omega

/-- The accumulator loop adds the batch length to `n_total` and the number
of `true` classifications to `n_intersections`. -/
lemma sort_needles_counts : ∀ (l : List (Needle ℚ × Bool)) (s : SimState),
    (sort_needles s l).n_total = s.n_total + l.length ∧
    (sort_needles s l).n_intersections =
      s.n_intersections + ((l.map Prod.snd).count true : ℤ) := by
  intro l
  induction l with
  | nil => intro s; simp [sort_needles]
  | cons hd tl ih =>
    intro s
    obtain ⟨p, b⟩ := hd
    cases b with
    | true =>
      have h := ih { s with green_needles := s.green_needles ++ [p],
                            n_intersections := s.n_intersections + 1,
                            n_total := s.n_total + 1 }
      constructor
      · rw [show sort_needles s ((p, true) :: tl) =
          sort_needles { s with green_needles := s.green_needles ++ [p],
                                n_intersections := s.n_intersections + 1,
                                n_total := s.n_total + 1 } tl from by simp [sort_needles]]
        rw [h.1]; simp; omega
      · rw [show sort_needles s ((p, true) :: tl) =
          sort_needles { s with green_needles := s.green_needles ++ [p],
                                n_intersections := s.n_intersections + 1,
                                n_total := s.n_total + 1 } tl from by simp [sort_needles]]
        rw [h.2]; simp [List.count_cons]; omega
    | false =>
      have h := ih { s with red_needles := s.red_needles ++ [p],
                            n_total := s.n_total + 1 }
      constructor
      · rw [show sort_needles s ((p, false) :: tl) =
          sort_needles { s with red_needles := s.red_needles ++ [p],
                                n_total := s.n_total + 1 } tl from by simp [sort_needles]]
        rw [h.1]; simp; omega
      · rw [show sort_needles s ((p, false) :: tl) =
          sort_needles { s with red_needles := s.red_needles ++ [p],
                                n_total := s.n_total + 1 } tl from by simp [sort_needles]]
        rw [h.2]; simp [List.count_cons]

/-- Below the early-return threshold, `update` grows `n_total` by exactly
the truncated batch size. -/
lemma update_n_total (oracle : ℕ → Needle ℚ) (frame : ℤ) (s : SimState)
    (h : s.n_total < MAX_NEEDLES) :
    (update oracle frame s).n_total =
      s.n_total + min N_NEEDLES_PER_FRAME (MAX_NEEDLES - s.n_total) := by
  have hnle : ¬ (MAX_NEEDLES ≤ s.n_total) := not_le.mpr h
  have hnn : 0 ≤ min N_NEEDLES_PER_FRAME (MAX_NEEDLES - s.n_total) := by
    apply le_min
    · norm_num [N_NEEDLES_PER_FRAME]
    · omega
  simp only [update, if_neg hnle]
  set n := min N_NEEDLES_PER_FRAME (MAX_NEEDLES - s.n_total) with hn
  set positions := (List.range n.toNat).map oracle with hpos
  set batch := positions.zip (check_intersections_batch positions LINE_SPACING) with hbatch
  have hblen : batch.length = n.toNat := by
    rw [hbatch, List.length_zip]
    have h1 : positions.length = n.toNat := by simp [hpos]
    have h2 : (check_intersections_batch positions LINE_SPACING).length = positions.length := by
      simp [check_intersections_batch]
    omega
  have hs1 := (sort_needles_counts batch s).1
  have hcast : ((n.toNat : ℕ) : ℤ) = n := Int.toNat_of_nonneg hnn
  split
  · simp only []
    rw [hs1, hblen]; omega
  · rw [hs1, hblen]; omega

/-- C1: for every needle and every spacing `D > 0`, the batch classifier
reports intersection exactly when some integer multiple `k * D` lies in the
closed interval of the needle's endpoint y-coordinates; in particular, with
`D = 1` the needle `(0,0)-(0,1)` classifies true and `(0,0.2)-(0,0.3)`
classifies false. -/
theorem C1_classifier_iff_line_in_interval :
    (∀ (p : Needle ℚ) (D : ℚ), 0 < D →
      (check_one p D = true ↔
        ∃ k : ℤ, min p.y1 p.y2 ≤ (k : ℚ) * D ∧ (k : ℚ) * D ≤ max p.y1 p.y2)) ∧
    (∀ (positions : List (Needle ℚ)) (D : ℚ),
      check_intersections_batch positions D = positions.map (fun p => check_one p D)) ∧
    check_intersections_batch [⟨0, 0, 0, 1⟩] 1 = [true] ∧
    check_intersections_batch [⟨0, 1/5, 0, 3/10⟩] 1 = [false] := by
  refine ⟨fun p D hD => check_one_true_iff p D hD, fun ps D => rfl, ?_, ?_⟩
  · norm_num [check_intersections_batch, check_one, sweep, sweepFuel, line_below,
      line_above, pyTrunc]
  · norm_num [check_intersections_batch, check_one, sweep, sweepFuel, line_below,
      line_above, pyTrunc]

/-- Witness for C1 at the needle `(0,0)-(0,1)` and spacing 1. -/
theorem C1_witness :
    (0 : ℚ) < 1 ∧
    (check_one ⟨0, 0, 0, 1⟩ 1 = true ↔
      ∃ k : ℤ, min (0 : ℚ) 1 ≤ (k : ℚ) * 1 ∧ (k : ℚ) * 1 ≤ max (0 : ℚ) 1) :=
  ⟨zero_lt_one, C1_classifier_iff_line_in_interval.1 ⟨0, 0, 0, 1⟩ 1 zero_lt_one⟩

/-- C2 (counterexample): the classifier does evaluate the test by iterating
candidate line positions one spacing-step at a time — on the needle
`(0,0.2)-(0,0.3)` with spacing 1 the loop condition is evaluated three
times (candidate positions 0 and 1 are examined before the exit check),
while on `(0,0)-(0,0)` it is evaluated once, so the evaluation is a loop
over candidates, not a single closed-form arithmetic computation. -/
theorem C2_counterexample :
    check_one_steps ⟨0, 1/5, 0, 3/10⟩ 1 = 3 ∧ check_one_steps ⟨0, 0, 0, 0⟩ 1 = 1 := by
  constructor
  · norm_num [check_one_steps, sweepSteps, sweepFuel, line_below, line_above, pyTrunc]
  · norm_num [check_one_steps, sweepSteps, sweepFuel, line_below, line_above, pyTrunc]

/-- C2 (amended): for every needle and spacing > 0 the classifier's boolean
equals the spec's floor-based closed-form test; the code computes it by the
candidate-line sweep loop rather than by a single closed-form arithmetic
expression, but the loop's bracketing makes the per-needle cost constant
all the same: at most three loop-condition evaluations per needle,
independent of needle length and spacing. -/
theorem C2_floor_test_equivalence :
    ∀ (p : Needle ℚ) (s : ℚ), 0 < s →
      check_one p s = closed_form_test p s ∧ check_one_steps p s ≤ 3 :=
  fun p s hs => ⟨check_one_eq_closed_form p s hs, check_one_steps_le_three p s hs⟩

/-- Witness for the amended C2 at the needle `(0,0)-(0,1)` and spacing 1. -/
theorem C2_witness :
    (0 : ℚ) < 1 ∧
    (check_one ⟨0, 0, 0, 1⟩ 1 = closed_form_test ⟨0, 0, 0, 1⟩ 1 ∧
      check_one_steps ⟨0, 0, 0, 1⟩ 1 ≤ 3) :=
  ⟨zero_lt_one, C2_floor_test_equivalence ⟨0, 0, 0, 1⟩ 1 zero_lt_one⟩

/-- C3: after the accumulator loop processes a batch, the invariant
`0 ≤ n_intersections ≤ n_total` still holds, both totals are monotone, and
the batch adds exactly its size to `n_total` and its count of true
classifications to `n_intersections`. -/
theorem C3_accumulator_invariant :
    ∀ (s : SimState) (batch : List (Needle ℚ × Bool)),
      0 ≤ s.n_intersections → s.n_intersections ≤ s.n_total →
      0 ≤ (sort_needles s batch).n_intersections ∧
      (sort_needles s batch).n_intersections ≤ (sort_needles s batch).n_total ∧
      s.n_intersections ≤ (sort_needles s batch).n_intersections ∧
      s.n_total ≤ (sort_needles s batch).n_total ∧
      (sort_needles s batch).n_total = s.n_total + batch.length ∧
      (sort_needles s batch).n_intersections =
        s.n_intersections + ((batch.map Prod.snd).count true : ℤ) := by
  intro s batch h0 h1
  obtain ⟨ht, hi⟩ := sort_needles_counts batch s
  have hcount : ((batch.map Prod.snd).count true : ℤ) ≤ (batch.length : ℤ) := by
    have hc := List.count_le_length (a := true) (l := batch.map Prod.snd)
    have hm : (batch.map Prod.snd).length = batch.length := List.length_map _ _
    exact_mod_cast hm ▸ hc
  have hcount0 : (0 : ℤ) ≤ ((batch.map Prod.snd).count true : ℤ) := Int.ofNat_nonneg _
  refine ⟨by omega, by omega, by omega, by omega, ht, hi⟩

/-- Witness for C3: the zero accumulator absorbing a one-needle batch whose
needle intersects. -/
theorem C3_witness :
    (0 : ℤ) ≤ 0 ∧ (0 : ℤ) ≤ 0 ∧
    (0 ≤ (sort_needles ⟨0, 0, [], [], [], []⟩ [(⟨0, 0, 0, 1⟩, true)]).n_intersections ∧
     (sort_needles ⟨0, 0, [], [], [], []⟩ [(⟨0, 0, 0, 1⟩, true)]).n_intersections ≤
       (sort_needles ⟨0, 0, [], [], [], []⟩ [(⟨0, 0, 0, 1⟩, true)]).n_total ∧
     (0 : ℤ) ≤ (sort_needles ⟨0, 0, [], [], [], []⟩ [(⟨0, 0, 0, 1⟩, true)]).n_intersections ∧
     (0 : ℤ) ≤ (sort_needles ⟨0, 0, [], [], [], []⟩ [(⟨0, 0, 0, 1⟩, true)]).n_total ∧
     (sort_needles ⟨0, 0, [], [], [], []⟩ [(⟨0, 0, 0, 1⟩, true)]).n_total = 0 + 1 ∧
     (sort_needles ⟨0, 0, [], [], [], []⟩ [(⟨0, 0, 0, 1⟩, true)]).n_intersections = 0 + 1) :=
  ⟨le_refl 0, le_refl 0,
    C3_accumulator_invariant ⟨0, 0, [], [], [], []⟩ [(⟨0, 0, 0, 1⟩, true)]
      (le_refl 0) (le_refl 0)⟩

/-- C4: the π estimate is guarded — no totals yields the undefined marker,
an empirical ratio at or below 0.01 yields the undefined marker, and
otherwise the estimate is `2 * L / (ratio * D)`. -/
theorem C4_pi_estimate_guard :
    ∀ (ni nt : ℤ),
      (nt = 0 → pi_estimate ni nt = none) ∧
      (0 < nt → (ni : ℚ) / (nt : ℚ) ≤ 1 / 100 → pi_estimate ni nt = none) ∧
      (0 < nt → 1 / 100 < (ni : ℚ) / (nt : ℚ) →
        pi_estimate ni nt =
          some (2 * NEEDLE_LENGTH / (((ni : ℚ) / (nt : ℚ)) * LINE_SPACING))) := by
  intro ni nt
  refine ⟨?_, ?_, ?_⟩
  · intro h; simp [pi_estimate, h]
  · intro h1 h2; simp only [pi_estimate, if_pos h1, if_neg (not_lt.mpr h2)]
  · intro h1 h2; simp only [pi_estimate, if_pos h1, if_pos h2]

/-- Witness for C4 at the spec's concrete scenario 6366 of 10000. -/
theorem C4_witness :
    (0 : ℤ) < 10000 ∧ (1 : ℚ) / 100 < ((6366 : ℤ) : ℚ) / ((10000 : ℤ) : ℚ) ∧
    pi_estimate 6366 10000 =
      some (2 * NEEDLE_LENGTH / ((((6366 : ℤ) : ℚ) / ((10000 : ℤ) : ℚ)) * LINE_SPACING)) :=
  ⟨by norm_num, by norm_num,
    (C4_pi_estimate_guard 6366 10000).2.2 (by norm_num) (by norm_num)⟩

/-- C5: classification reads only the endpoint y-coordinates and the
spacing — two needles agreeing on `y1` and `y2` classify identically for
every spacing, whatever their x-coordinates. -/
theorem C5_x_noninterference :
    ∀ (p q : Needle ℚ) (s : ℚ), p.y1 = q.y1 → p.y2 = q.y2 →
      check_one p s = check_one q s := by
  intro p q s h1 h2
  simp only [check_one]
  rw [h1, h2]

/-- Witness for C5: equal y-extents, wildly different x-extents. -/
theorem C5_witness :
    (Needle.mk 0 0 5 1 : Needle ℚ).y1 = (Needle.mk 7 0 (-3) 1 : Needle ℚ).y1 ∧
    (Needle.mk 0 0 5 1 : Needle ℚ).y2 = (Needle.mk 7 0 (-3) 1 : Needle ℚ).y2 ∧
    check_one ⟨0, 0, 5, 1⟩ 1 = check_one ⟨7, 0, -3, 1⟩ 1 :=
  ⟨rfl, rfl, C5_x_noninterference ⟨0, 0, 5, 1⟩ ⟨7, 0, -3, 1⟩ 1 rfl rfl⟩

/-- C6: closed-interval tie-break — a needle lying exactly on the line
`k * D` (both endpoint y-coordinates equal to `k * D`, `k ≥ 0`) classifies
as intersecting, and more generally any needle one of whose endpoint
y-coordinates equals a line position classifies as intersecting. -/
theorem C6_boundary_tie_break :
    ∀ (D : ℚ) (k : ℤ) (p : Needle ℚ), 0 < D →
      (0 ≤ k → p.y1 = (k : ℚ) * D → p.y2 = (k : ℚ) * D → check_one p D = true) ∧
      ((p.y1 = (k : ℚ) * D ∨ p.y2 = (k : ℚ) * D) → check_one p D = true) := by
  intro D k p hD
  have hgen : (p.y1 = (k : ℚ) * D ∨ p.y2 = (k : ℚ) * D) → check_one p D = true := by
    intro h
    apply (check_one_true_iff p D hD).mpr
    rcases h with h | h
    · exact ⟨k, by rw [← h]; exact min_le_left _ _, by rw [← h]; exact le_max_left _ _⟩
    · exact ⟨k, by rw [← h]; exact min_le_right _ _, by rw [← h]; exact le_max_right _ _⟩
  exact ⟨fun _ h1 _ => hgen (Or.inl h1), hgen⟩

/-- Witness for C6: the needle lying exactly on the line `y = 2` with
spacing 1. -/
theorem C6_witness :
    (0 : ℚ) < 1 ∧ (0 : ℤ) ≤ 2 ∧
    (Needle.mk 0 2 0 2 : Needle ℚ).y1 = ((2 : ℤ) : ℚ) * 1 ∧
    check_one ⟨0, 2, 0, 2⟩ 1 = true :=
  ⟨zero_lt_one, by norm_num, by norm_num,
    (C6_boundary_tie_break 1 2 ⟨0, 2, 0, 2⟩ zero_lt_one).1 (by norm_num)
      (by norm_num) (by norm_num)⟩

/-- C7: the sampler maps each draw `(x, y, angle)` to the needle with first
endpoint `(x, y)` (inside the sampling bounds when the draw is) and second
endpoint `(x + len * cos angle, y + len * sin angle)`, so every generated
needle has Euclidean length equal to the configured length; the batch has
exactly one needle per draw, and an empty draw list yields the empty batch
with no error. -/
theorem C7_sampler :
    ∀ (len x y angle x_min x_max y_min y_max : ℝ),
      0 ≤ len → x_min ≤ x → x ≤ x_max → y_min ≤ y → y ≤ y_max →
      (∀ draws : List (ℝ × ℝ × ℝ),
        generate_needles_batch len draws =
          draws.map (fun d => generate_one len d.1 d.2.1 d.2.2) ∧
        (generate_needles_batch len draws).length = draws.length) ∧
      generate_needles_batch len [] = [] ∧
      (generate_one len x y angle).x1 = x ∧
      (generate_one len x y angle).y1 = y ∧
      x_min ≤ (generate_one len x y angle).x1 ∧
      (generate_one len x y angle).x1 ≤ x_max ∧
      y_min ≤ (generate_one len x y angle).y1 ∧
      (generate_one len x y angle).y1 ≤ y_max ∧
      (generate_one len x y angle).x2 = x + len * Real.cos angle ∧
      (generate_one len x y angle).y2 = y + len * Real.sin angle ∧
      needleLength (generate_one len x y angle) = len := by
  intro len x y angle x_min x_max y_min y_max hlen hx1 hx2 hy1 hy2
  refine ⟨fun draws => ⟨rfl, by simp [generate_needles_batch]⟩, rfl, rfl, rfl,
    hx1, hx2, hy1, hy2, rfl, rfl, ?_⟩
  simp only [needleLength, generate_one]
  have h1 : x + len * Real.cos angle - x = len * Real.cos angle := by ring
  have h2 : y + len * Real.sin angle - y = len * Real.sin angle := by ring
  rw [h1, h2]
  have h3 : (len * Real.cos angle) ^ 2 + (len * Real.sin angle) ^ 2 = len ^ 2 := by
    have h4 := Real.sin_sq_add_cos_sq angle
    nlinarith [h4]
  rw [h3, Real.sqrt_sq hlen]

/-- Witness for C7: one needle dropped at the origin, angle 0, length 1,
bounds `[0,10] x [0,10]`. -/
theorem C7_witness :
    (0 : ℝ) ≤ 1 ∧ (0 : ℝ) ≤ 0 ∧ (0 : ℝ) ≤ 10 ∧
    needleLength (generate_one 1 0 0 0) = 1 :=
  ⟨by norm_num, le_refl 0, by norm_num,
    (C7_sampler 1 0 0 0 0 10 0 10 (by norm_num) (le_refl 0) (by norm_num)
      (le_refl 0) (by norm_num)).2.2.2.2.2.2.2.2.2.2⟩

/-- C8 (counterexample): no InvalidParameter rejection exists in the code —
the sampler, handed the non-positive needle length -1, runs and produces a
needle rather than failing fast, so a non-positive length does reach the
sampler. -/
theorem C8_counterexample :
    generate_needles_batch (-1 : ℝ) [(0, 0, 0)] = [⟨0, 0, -1, 0⟩] := by
  simp [generate_needles_batch, generate_one, Real.cos_zero, Real.sin_zero]

/-- C8 (amended): the module's fixed configuration constants satisfy
`L > 0`, `D > 0`, batch size > 0 and sample budget ≥ 0, but no validation
is performed anywhere: a non-positive needle length is accepted by the
sampler and a non-positive spacing is accepted by the classifier, each
producing a result instead of an InvalidParameter failure. -/
theorem C8_constants_valid_but_unchecked :
    0 < NEEDLE_LENGTH ∧ 0 < LINE_SPACING ∧ 0 < N_NEEDLES_PER_FRAME ∧ 0 ≤ MAX_NEEDLES ∧
    (generate_needles_batch (-1 : ℝ) [(5, 5, 0)]).length = 1 ∧
    check_one ⟨0, 0, 0, 1⟩ (-1) = true := by
  refine ⟨by norm_num [NEEDLE_LENGTH], by norm_num [LINE_SPACING],
    by norm_num [N_NEEDLES_PER_FRAME], by norm_num [MAX_NEEDLES],
    by simp [generate_needles_batch], ?_⟩
  norm_num [check_one, sweep, sweepFuel, line_below, line_above, pyTrunc,
    Int.ceil_neg, neg_div]

/-- C9: once `n_total` has reached `MAX_NEEDLES` the per-frame update
returns the state unchanged; below the cap, the batch is truncated to
`min(N_NEEDLES_PER_FRAME, MAX_NEEDLES - n_total)`, so `n_total` never
exceeds `MAX_NEEDLES`. -/
theorem C9_max_needles_cap :
    ∀ (oracle : ℕ → Needle ℚ) (frame : ℤ) (s : SimState),
      (MAX_NEEDLES ≤ s.n_total → update oracle frame s = s) ∧
      (s.n_total ≤ MAX_NEEDLES → (update oracle frame s).n_total ≤ MAX_NEEDLES) ∧
      (s.n_total < MAX_NEEDLES →
        (update oracle frame s).n_total =
          s.n_total + min N_NEEDLES_PER_FRAME (MAX_NEEDLES - s.n_total)) := by
  intro oracle frame s
  refine ⟨?_, ?_, fun h => update_n_total oracle frame s h⟩
  · intro h; simp only [update, if_pos h]
  · intro h
    rcases lt_or_eq_of_le h with hlt | heq
    · rw [update_n_total oracle frame s hlt]
      have := min_le_right N_NEEDLES_PER_FRAME (MAX_NEEDLES - s.n_total)
      omega
    · rw [show update oracle frame s = s from by simp only [update, if_pos (le_of_eq heq.symm)]]
      omega

/-- Witness for C9: at the cap of 2000 needles, the frame update leaves the
whole state untouched. -/
theorem C9_witness :
    MAX_NEEDLES ≤ (SimState.mk 0 2000 [] [] [] []).n_total ∧
    update (fun _ => ⟨0, 0, 0, 0⟩) 0 ⟨0, 2000, [], [], [], []⟩ =
      ⟨0, 2000, [], [], [], []⟩ :=
  ⟨by norm_num [MAX_NEEDLES],
    (C9_max_needles_cap (fun _ => ⟨0, 0, 0, 0⟩) 0 ⟨0, 2000, [], [], [], []⟩).1
      (by norm_num [MAX_NEEDLES])⟩

/-- C10: for every needle and spacing > 0 the candidate-line sweep loop,
started at `line_below` and bounded by `line_above`, exits after finitely
many iterations — some finite fuel makes the fueled loop return a result. -/
theorem C10_sweep_terminates :
    ∀ (p : Needle ℚ) (s : ℚ), 0 < s →
      ∃ fuel : ℕ,
        (sweep (min p.y1 p.y2) (max p.y1 p.y2) s (line_above (max p.y1 p.y2) s)
          (line_below (min p.y1 p.y2) s) fuel).isSome = true := by
  intro p s hs
  obtain ⟨r, hr, _⟩ := sweep_run (min p.y1 p.y2) (max p.y1 p.y2) s hs
      (pyTrunc (max p.y1 p.y2 / s) + 1)
      (sweepFuel (min p.y1 p.y2) (max p.y1 p.y2) s)
      (pyTrunc (min p.y1 p.y2 / s)) (by unfold sweepFuel; omega)
  refine ⟨sweepFuel (min p.y1 p.y2) (max p.y1 p.y2) s, ?_⟩
  rw [show line_above (max p.y1 p.y2) s =
      ((pyTrunc (max p.y1 p.y2 / s) + 1 : ℤ) : ℚ) * s from rfl,
    show line_below (min p.y1 p.y2) s =
      ((pyTrunc (min p.y1 p.y2 / s) : ℤ) : ℚ) * s from rfl, hr]
  rfl

/-- Witness for C10 at the needle `(0,0)-(0,1)` and spacing 1. -/
theorem C10_witness :
    (0 : ℚ) < 1 ∧
    ∃ fuel : ℕ,
      (sweep (min (0 : ℚ) 1) (max (0 : ℚ) 1) 1 (line_above (max (0 : ℚ) 1) 1)
        (line_below (min (0 : ℚ) 1) 1) fuel).isSome = true :=
  ⟨zero_lt_one, C10_sweep_terminates ⟨0, 0, 0, 1⟩ 1 zero_lt_one⟩

end Buffon
